import Mathlib

/-!
Verification of the Foresight basket optimizer (`src/optimizer.py`).

The optimizer is a pure function of fully materialized inputs, so it is
shallowly embedded here over exact rationals: a pandas DataFrame of supplier
price rows becomes a `List Offer`, the basket a `List Line`, the tier table a
`List Tier`.  `sort_values` is modelled by the stable `List.insertionSort` on
the sort key (ties keep input order), `itertools.combinations` by an
explicitly ordered `combinations` function, and the `{"ok": ...}` result
dictionaries by `Except OptError BestResult`.
-/

attribute [local semireducible] Rat.add Rat.mul

namespace Foresight

/-- One row of the `supplier_prices` table:
`Supplier, Product, Location, Delivery Window, Price`. -/
structure Offer where
  supplier : String
  product : String
  location : String
  window : String
  price : ℚ
deriving DecidableEq, Repr

/-- One basket line: `{Product, Location, Delivery Window, Qty}`. -/
structure Line where
  product : String
  location : String
  window : String
  qty : ℚ
deriving DecidableEq, Repr

/-- One row of the tier table: `min_t, max_t (nullable), charge_per_t, active`.

The `active` column holds the integer flag compared against `1` by
`tiers["active"] == 1`; a missing/NaN `max_t` is `none`. -/
structure Tier where
  min_t : ℚ
  max_t : Option ℚ
  charge_per_t : ℚ
  active : Nat
deriving DecidableEq, Repr

/-- One row of the `allocation` list built by `optimise_basket`. -/
structure AllocEntry where
  product : String
  location : String
  window : String
  qty : ℚ
  supplier : String
  price : ℚ
  lineCost : ℚ
deriving DecidableEq, Repr

instance : Inhabited AllocEntry :=
  ⟨⟨"", "", "", 0, "", 0, 0⟩⟩

/-- One row of the `lot_charges` list: `Supplier, Tonnes, Charge £/t, Lot Charge`. -/
structure LotEntry where
  supplier : String
  tonnes : ℚ
  chargePerT : ℚ
  lotCharge : ℚ
deriving DecidableEq, Repr

/-- The fields of the successful result dictionary of `optimise_basket`. -/
structure BestResult where
  total : ℚ
  base_cost : ℚ
  lot_charge_total : ℚ
  allocation : List AllocEntry
  lot_charges : List LotEntry
deriving DecidableEq, Repr

/-- The three `{"ok": False, "error": ...}` outcomes of `optimise_basket`. -/
inductive OptError where
  | emptyBasket
  | noSupplierForLine (product location window : String)
  | noFeasible
deriving DecidableEq, Repr

deriving instance DecidableEq for Except

/-- The sort key of `active.sort_values("min_t")`. -/
def tierLE (a b : Tier) : Prop :=
  a.min_t ≤ b.min_t

instance : DecidableRel tierLE := fun a b => inferInstanceAs (Decidable (a.min_t ≤ b.min_t))

instance : IsTotal Tier tierLE := ⟨fun a b => le_total a.min_t b.min_t⟩

instance : IsTrans Tier tierLE := ⟨fun _ _ _ h h' => le_trans h h'⟩

/-- The sort key of `subset.sort_values("Price", ascending=True)`. -/
def offerLE (a b : Offer) : Prop :=
  a.price ≤ b.price

instance : DecidableRel offerLE := fun a b => inferInstanceAs (Decidable (a.price ≤ b.price))

instance : IsTotal Offer offerLE := ⟨fun a b => le_total a.price b.price⟩

instance : IsTrans Offer offerLE := ⟨fun _ _ _ h h' => le_trans h h'⟩

/-- The loop condition `t >= mn and (mx is None or t <= mx)` of
`tier_charge_per_t`: both tier bounds are inclusive, a `none` upper bound
means unbounded. -/
def tierMatches (t : ℚ) (r : Tier) : Bool :=
  decide (r.min_t ≤ t) && (match r.max_t with
    | none => true
    | some mx => decide (t ≤ mx))

/-- `tier_charge_per_t(tonnes, tiers)` (optimizer.py lines 4-20): `0` for
`tonnes <= 0`; otherwise scan the active rows in ascending `min_t` order and
return the charge of the first row whose `[min_t, max_t]` range contains
`tonnes`, or `0` when none does. -/
def tier_charge_per_t (tonnes : ℚ) (tiers : List Tier) : ℚ :=
  if tonnes ≤ 0 then 0
  else
    match (List.insertionSort tierLE
        (tiers.filter (fun r => r.active == 1))).find? (tierMatches tonnes) with
    | some r => r.charge_per_t
    | none => 0

/-- The per-line candidate table (optimizer.py lines 46-55): the price rows
matching the line's exact `(Product, Location, Delivery Window)`, sorted
ascending by `Price`. -/
def lineCandidates (prices : List Offer) (l : Line) : List Offer :=
  List.insertionSort offerLE
    (prices.filter (fun o =>
      o.product == l.product && o.location == l.location && o.window == l.window))

/-- `candidates_by_line`: each basket line paired with its sorted candidates. -/
def candidatesOf (prices : List Offer) (basket : List Line) :
    List (Line × List Offer) :=
  basket.map (fun l => (l, lineCandidates prices l))

/-- Lexicographic code-point comparison of character lists, the order Python's
`sorted` applies to strings. -/
def charsLE : List Char → List Char → Bool
  | [], _ => true
  | _ :: _, [] => false
  | a :: as, b :: bs =>
    if a.toNat < b.toNat then true
    else if b.toNat < a.toNat then false
    else charsLE as bs

/-- The string order of `sorted(all_suppliers)`. -/
def strLE (a b : String) : Prop :=
  charsLE a.data b.data = true

instance : DecidableRel strLE :=
  fun a b => inferInstanceAs (Decidable (charsLE a.data b.data = true))

/-- `all_suppliers = sorted(set of suppliers over all candidate rows)`. -/
def allSuppliers (cands : List (Line × List Offer)) : List String :=
  List.insertionSort strLE
    ((cands.flatMap (fun p => p.2.map (fun o => o.supplier))).dedup)

/-- `itertools.combinations l r`: all length-`r` sublists of `l`, emitted in
lexicographic order of member positions, members in input order. -/
def combinations : Nat → List String → List (List String)
  | 0, _ => [[]]
  | _ + 1, [] => []
  | r + 1, x :: xs => (combinations r xs).map (fun c => x :: c) ++ combinations (r + 1) xs

/-- The subset enumeration `for r in range(1, cap + 1): combinations(l, r)`. -/
def subsetsUpTo (cap : Nat) (l : List String) : List (List String) :=
  (List.range cap).flatMap (fun i => combinations (i + 1) l)

/-- The allocation row appended for line `l` won by offer `o` (optimizer.py
lines 90-98). -/
def entryOf (l : Line) (o : Offer) : AllocEntry :=
  ⟨l.product, l.location, l.window, l.qty, o.supplier, o.price, l.qty * o.price⟩

/-- The inner per-line loop (optimizer.py lines 79-101): for each line take the
first (cheapest) candidate whose supplier is in `S`; `none` when some line has
no candidate within `S` (the `feasible = False` break). -/
def assignLines (S : List String) :
    List (Line × List Offer) → Option (List AllocEntry)
  | [] => some []
  | (l, subset) :: rest =>
    match (subset.filter (fun o => S.contains o.supplier)).head? with
    | none => none
    | some o =>
      match assignLines S rest with
      | none => none
      | some alloc => some (entryOf l o :: alloc)

/-- `tonnes_by_supplier[s]`: total quantity of the allocation's lines won by
supplier `s`. -/
def allocTonnes (alloc : List AllocEntry) (s : String) : ℚ :=
  ((alloc.filter (fun a => a.supplier == s)).map (fun a => a.qty)).sum

/-- The lot-charge loop (optimizer.py lines 106-121): one entry per supplier
of `S` with positive tonnage whose resolved charge per tonne is positive. -/
def lotChargesFor (tiers : List Tier) (S : List String)
    (alloc : List AllocEntry) : List LotEntry :=
  S.filterMap (fun s =>
    let t := allocTonnes alloc s
    if t ≤ 0 then none
    else
      let cpt := tier_charge_per_t t tiers
      if 0 < cpt then some ⟨s, t, cpt, t * cpt⟩ else none)

/-- Evaluation of one supplier subset `S` (optimizer.py lines 74-123): `none`
when infeasible, otherwise the candidate result with
`total = base_cost + lot_charge_total`. -/
def evalSubset (tiers : List Tier) (cands : List (Line × List Offer))
    (S : List String) : Option BestResult :=
  match assignLines S cands with
  | none => none
  | some alloc =>
    let base := (alloc.map (fun a => a.lineCost)).sum
    let lots := lotChargesFor tiers S alloc
    let lct := (lots.map (fun e => e.lotCharge)).sum
    some ⟨base + lct, base, lct, alloc, lots⟩

/-- The running `best` fold (optimizer.py lines 125-132): keep the first
strictly cheaper candidate, so the earliest enumerated result wins ties. -/
def pickBest (l : List BestResult) : Option BestResult :=
  l.foldl (fun best r =>
    match best with
    | none => some r
    | some b => if r.total < b.total then some r else some b) none

/-- The subsets visited by `for r in range(1, min(k, 15) + 1): for S in
combinations(all_suppliers, r)` (optimizer.py lines 70-71). -/
def candidateSubsets (prices : List Offer) (basket : List Line) :
    List (List String) :=
  subsetsUpTo (min (allSuppliers (candidatesOf prices basket)).length 15)
    (allSuppliers (candidatesOf prices basket))

/-- `optimise_basket(supplier_prices, basket, tiers)` (optimizer.py lines
22-137): fail on an empty basket, fail naming the first line with no matching
price row, otherwise enumerate supplier subsets up to size `min(k, 15)` and
return the cheapest feasible evaluation, failing when none is feasible. -/
def optimise_basket (supplier_prices : List Offer) (basket : List Line)
    (tiers : List Tier) : Except OptError BestResult :=
  if basket = [] then .error .emptyBasket
  else
    match basket.find? (fun l => (lineCandidates supplier_prices l).isEmpty) with
    | some l => .error (.noSupplierForLine l.product l.location l.window)
    | none =>
      match pickBest ((candidateSubsets supplier_prices basket).filterMap
          (evalSubset tiers (candidatesOf supplier_prices basket))) with
      | none => .error .noFeasible
      | some b => .ok b

/-- Spec-side (§4.1): the range `[MinTonnes, MaxTonnes]` of a tier contains a
tonnage, inclusively at both ends, an absent `MaxTonnes` meaning no upper
limit. -/
def tierContains (r : Tier) (t : ℚ) : Prop :=
  r.min_t ≤ t ∧ ∀ mx ∈ r.max_t, t ≤ mx

/-- Spec-side (§glossary "feasible subset"): a supplier subset `S` covers every
line of the candidate table, i.e. each line has a candidate offer whose
supplier lies in `S`. -/
def covers (S : List String) (cands : List (Line × List Offer)) : Prop :=
  ∀ p ∈ cands, ∃ o ∈ p.2, o.supplier ∈ S

/-- Spec-side (§3): a feasible assignment of one quoting supplier per line,
given as the chosen price row for each basket line in order: one row per line,
each drawn from the price table and matching the line's exact
`(Product, Location, Delivery Window)`. -/
def specAssignmentOK (prices : List Offer) (basket : List Line)
    (choice : List Offer) : Bool :=
  choice.length == basket.length &&
  (basket.zip choice).all (fun pc =>
    prices.contains pc.2 && pc.2.product == pc.1.product &&
    pc.2.location == pc.1.location && pc.2.window == pc.1.window)

/-- Spec-side (§3 invariants): the cost of an arbitrary per-line assignment,
`baseCost + lotChargeTotal` with `lotChargeTotal = Σ` over suppliers with
positive won tonnage of `tonnes × resolved tier charge`. -/
def specAssignmentCost (tiers : List Tier) (basket : List Line)
    (choice : List Offer) : ℚ :=
  let pairs := basket.zip choice
  ((pairs.map (fun pc => pc.1.qty * pc.2.price)).sum) +
  (((choice.map (fun o => o.supplier)).dedup).map (fun s =>
    let t := ((pairs.filter (fun pc => pc.2.supplier == s)).map
      (fun pc => pc.1.qty)).sum
    if 0 < t then t * tier_charge_per_t t tiers else 0)).sum

/-- The choice `optimise_basket` makes for a single line under subset `S`:
the first candidate (in ascending price order) whose supplier is in `S`. -/
def perLine (prices : List Offer) (S : List String) (l : Line) :
    Option AllocEntry :=
  ((lineCandidates prices l).filter (fun o => S.contains o.supplier)).head?.map
    (entryOf l)

/-! ### Basic lemmas -/

theorem tierMatches_iff (t : ℚ) (r : Tier) :
    tierMatches t r = true ↔ tierContains r t := by
  rcases r with ⟨mn, mx, c, a⟩
  cases mx <;> simp [tierMatches, tierContains]

instance (r : Tier) (t : ℚ) : Decidable (tierContains r t) :=
  decidable_of_iff _ (tierMatches_iff t r)

theorem pickBest_go (l : List BestResult) (a : BestResult) :
    ∃ c, l.foldl (fun best r =>
        match best with
        | none => some r
        | some b => if r.total < b.total then some r else some b) (some a) = some c ∧
      (c = a ∨ c ∈ l) ∧ c.total ≤ a.total ∧ ∀ x ∈ l, c.total ≤ x.total := by
  induction l generalizing a with
  | nil => exact ⟨a, rfl, Or.inl rfl, le_refl _, by simp⟩
  | cons r l ih =>
    by_cases h : r.total < a.total
    · obtain ⟨c, hc, hmem, hle, hall⟩ := ih r
      refine ⟨c, by simpa [h] using hc, ?_, le_trans hle (le_of_lt h), ?_⟩
      · rcases hmem with h' | h' <;> simp [h']
      · intro x hx
        rcases List.mem_cons.mp hx with rfl | hx
        · exact hle
        · exact hall x hx
    · obtain ⟨c, hc, hmem, hle, hall⟩ := ih a
      refine ⟨c, by simpa [h] using hc, ?_, hle, ?_⟩
      · rcases hmem with h' | h' <;> simp [h']
      · intro x hx
        rcases List.mem_cons.mp hx with rfl | hx
        · exact le_trans hle (not_lt.mp h)
        · exact hall x hx

theorem pickBest_spec (l : List BestResult) :
    (l = [] ∧ pickBest l = none) ∨
      ∃ b, pickBest l = some b ∧ b ∈ l ∧ ∀ x ∈ l, b.total ≤ x.total := by
  cases l with
  | nil => exact Or.inl ⟨rfl, rfl⟩
  | cons r l =>
    obtain ⟨c, hc, hmem, hle, hall⟩ := pickBest_go l r
    refine Or.inr ⟨c, hc, ?_, ?_⟩
    · rcases hmem with h' | h' <;> simp [h']
    · intro x hx
      rcases List.mem_cons.mp hx with rfl | hx
      · exact hle
      · exact hall x hx

theorem pickBest_mem {l : List BestResult} {b : BestResult}
    (h : pickBest l = some b) : b ∈ l := by
  rcases pickBest_spec l with ⟨_, hn⟩ | ⟨c, hc, hmem, _⟩
  · rw [h] at hn; cases hn
  · rw [h] at hc; cases hc; exact hmem

theorem pickBest_le {l : List BestResult} {b : BestResult}
    (h : pickBest l = some b) : ∀ x ∈ l, b.total ≤ x.total := by
  rcases pickBest_spec l with ⟨_, hn⟩ | ⟨c, hc, _, hall⟩
  · rw [h] at hn; cases hn
  · rw [h] at hc; cases hc; exact hall

theorem pickBest_eq_none_iff {l : List BestResult} :
    pickBest l = none ↔ l = [] := by
  constructor
  · intro h
    rcases pickBest_spec l with ⟨he, _⟩ | ⟨c, hc, _, _⟩
    · exact he
    · rw [h] at hc; cases hc
  · rintro rfl; rfl

theorem head?_filter_some {α : Type} {p : α → Bool} {l : List α} {a : α}
    (h : (l.filter p).head? = some a) : a ∈ l ∧ p a = true := by
  have ha : a ∈ l.filter p := List.mem_of_mem_head? (by rw [h]; rfl)
  exact List.mem_filter.mp ha

theorem mem_lineCandidates {prices : List Offer} {l : Line} {o : Offer} :
    o ∈ lineCandidates prices l ↔
      o ∈ prices ∧ o.product = l.product ∧ o.location = l.location ∧
        o.window = l.window := by
  unfold lineCandidates
  rw [(List.perm_insertionSort offerLE _).mem_iff, List.mem_filter]
  simp [and_assoc]

theorem mem_allSuppliers {cands : List (Line × List Offer)} {s : String} :
    s ∈ allSuppliers cands ↔ ∃ p ∈ cands, ∃ o ∈ p.2, o.supplier = s := by
  unfold allSuppliers
  rw [(List.perm_insertionSort _ _).mem_iff, List.mem_dedup, List.mem_flatMap]
  simp

theorem charsLE_total : ∀ as bs : List Char,
    charsLE as bs = true ∨ charsLE bs as = true := by
  intro as
  induction as with
  | nil => intro bs; exact Or.inl rfl
  | cons a as ih =>
    intro bs
    cases bs with
    | nil => exact Or.inr rfl
    | cons b bs =>
      by_cases h1 : a.toNat < b.toNat
      · exact Or.inl (by simp [charsLE, h1])
      · by_cases h2 : b.toNat < a.toNat
        · exact Or.inr (by simp [charsLE, h2])
        · rcases ih bs with h | h
          · exact Or.inl (by simp [charsLE, h1, h2, h])
          · exact Or.inr (by simp [charsLE, h1, h2, h])

theorem charsLE_trans : ∀ as bs cs : List Char,
    charsLE as bs = true → charsLE bs cs = true → charsLE as cs = true := by
  intro as
  induction as with
  | nil => intro bs cs h1 h2; rfl
  | cons a as ih =>
    intro bs cs h1 h2
    cases bs with
    | nil => exact absurd h1 (by simp [charsLE])
    | cons b bs =>
      cases cs with
      | nil => exact absurd h2 (by simp [charsLE])
      | cons c cs =>
        simp only [charsLE] at h1 h2 ⊢
        split_ifs at h1 h2 ⊢ <;>
          first
            | rfl
            | omega
            | (exact ih bs cs h1 h2)

theorem charsLE_antisymm : ∀ as bs : List Char,
    charsLE as bs = true → charsLE bs as = true → as = bs := by
  intro as
  induction as with
  | nil =>
    intro bs h1 h2
    cases bs with
    | nil => rfl
    | cons b bs => exact absurd h2 (by simp [charsLE])
  | cons a as ih =>
    intro bs h1 h2
    cases bs with
    | nil => exact absurd h1 (by simp [charsLE])
    | cons b bs =>
      simp only [charsLE] at h1 h2
      by_cases hab : a.toNat < b.toNat
      · rw [if_neg (Nat.lt_asymm hab), if_pos hab] at h2
        exact Bool.noConfusion h2
      · by_cases hba : b.toNat < a.toNat
        · rw [if_neg hab, if_pos hba] at h1
          exact Bool.noConfusion h1
        · rw [if_neg hab, if_neg hba] at h1
          rw [if_neg hba, if_neg hab] at h2
          have hn : a.toNat = b.toNat :=
            Nat.le_antisymm (Nat.not_lt.mp hba) (Nat.not_lt.mp hab)
          have hc : a = b :=
            Char.eq_of_val_eq (UInt32.eq_of_val_eq (Fin.eq_of_val_eq hn))
          rw [hc, ih bs h1 h2]

instance : IsTotal String strLE :=
  ⟨fun a b => charsLE_total a.data b.data⟩

instance : IsTrans String strLE :=
  ⟨fun a b c => charsLE_trans a.data b.data c.data⟩

instance : IsAntisymm String strLE :=
  ⟨fun a b h1 h2 => String.ext (charsLE_antisymm a.data b.data h1 h2)⟩

theorem find?_sorted_first {α : Type} {r : α → α → Prop} {p : α → Bool}
    {l : List α} {a : α} (hs : List.Sorted r l) (hrefl : ∀ x, r x x)
    (h : l.find? p = some a) : ∀ x ∈ l, p x = true → r a x := by
  induction l with
  | nil => cases h
  | cons b t ih =>
    rw [List.sorted_cons] at hs
    by_cases hb : p b
    · rw [List.find?_cons_of_pos _ hb] at h
      cases h
      intro x hx _
      rcases List.mem_cons.mp hx with rfl | hx
      · exact hrefl _
      · exact hs.1 x hx
    · rw [List.find?_cons_of_neg _ (by simpa using hb)] at h
      intro x hx hpx
      rcases List.mem_cons.mp hx with rfl | hx
      · exact absurd hpx hb
      · exact ih hs.2 h x hx hpx

theorem filter_head?_isSome {α : Type} (p : α → Bool) (l : List α) :
    ((l.filter p).head?).isSome = true ↔ ∃ x ∈ l, p x = true := by
  cases hf : l.filter p with
  | nil =>
    simp only [List.head?_nil, Option.isSome_none]
    constructor
    · intro h; cases h
    · rintro ⟨x, hx, hpx⟩
      exact absurd hpx (List.filter_eq_nil_iff.mp hf x hx)
  | cons a t =>
    simp only [List.head?_cons, Option.isSome_some]
    constructor
    · intro _
      have ha : a ∈ l.filter p := by rw [hf]; exact List.mem_cons_self a t
      exact ⟨a, (List.mem_filter.mp ha).1, (List.mem_filter.mp ha).2⟩
    · intro _; trivial

theorem assignLines_some_forall₂ {S : List String}
    {cands : List (Line × List Offer)} {alloc : List AllocEntry}
    (h : assignLines S cands = some alloc) :
    List.Forall₂ (fun (p : Line × List Offer) (e : AllocEntry) =>
      ∃ o, (p.2.filter (fun o => S.contains o.supplier)).head? = some o ∧
        e = entryOf p.1 o) cands alloc := by
  induction cands generalizing alloc with
  | nil =>
    cases h
    exact List.Forall₂.nil
  | cons p rest ih =>
    obtain ⟨l, subset⟩ := p
    cases hh : (subset.filter (fun o => S.contains o.supplier)).head? with
    | none =>
      simp only [assignLines, hh] at h
      exact Option.noConfusion h
    | some o =>
      simp only [assignLines, hh] at h
      cases har : assignLines S rest with
      | none => rw [har] at h; cases h
      | some alloc' =>
        rw [har] at h
        cases h
        exact List.Forall₂.cons ⟨o, hh, rfl⟩ (ih har)

theorem assignLines_isSome_iff {S : List String}
    {cands : List (Line × List Offer)} :
    (assignLines S cands).isSome = true ↔ covers S cands := by
  induction cands with
  | nil =>
    constructor
    · intro _ p hp; exact absurd hp (List.not_mem_nil p)
    · intro _; rfl
  | cons p rest ih =>
    obtain ⟨l, subset⟩ := p
    cases hh : (subset.filter (fun o => S.contains o.supplier)).head? with
    | none =>
      have hnone : assignLines S ((l, subset) :: rest) = none := by
        simp only [assignLines, hh]
      rw [hnone]
      constructor
      · intro h; cases h
      · intro hcov
        obtain ⟨o, ho, hos⟩ := hcov (l, subset) (List.mem_cons_self _ _)
        have hsome : ((subset.filter (fun o => S.contains o.supplier)).head?).isSome
            = true := by
          rw [filter_head?_isSome]
          exact ⟨o, ho, by simpa using hos⟩
        rw [hh] at hsome; cases hsome
    | some o =>
      have hstep : assignLines S ((l, subset) :: rest) =
          match assignLines S rest with
          | none => none
          | some alloc => some (entryOf l o :: alloc) := by
        simp only [assignLines, hh]
      rw [hstep]
      cases har : assignLines S rest with
      | none =>
        constructor
        · intro h; cases h
        · intro hcov
          have h2 : covers S rest := fun q hq => hcov q (List.mem_cons_of_mem _ hq)
          have := ih.mpr h2
          rw [har] at this; cases this
      | some alloc =>
        constructor
        · intro _ q hq
          rcases List.mem_cons.mp hq with rfl | hq
          · obtain ⟨ho, hos⟩ := head?_filter_some hh
            exact ⟨o, ho, by simpa using hos⟩
          · exact ih.mp (by rw [har]; rfl) q hq
        · intro _; rfl

theorem evalSubset_some_iff {tiers : List Tier}
    {cands : List (Line × List Offer)} {S : List String} {b : BestResult} :
    evalSubset tiers cands S = some b ↔
      ∃ alloc, assignLines S cands = some alloc ∧
        b = ⟨(alloc.map (fun a => a.lineCost)).sum +
              ((lotChargesFor tiers S alloc).map (fun e => e.lotCharge)).sum,
            (alloc.map (fun a => a.lineCost)).sum,
            ((lotChargesFor tiers S alloc).map (fun e => e.lotCharge)).sum,
            alloc, lotChargesFor tiers S alloc⟩ := by
  unfold evalSubset
  cases har : assignLines S cands with
  | none =>
    constructor
    · intro h; cases h
    · rintro ⟨alloc, ha, -⟩; cases ha
  | some alloc =>
    constructor
    · intro h; cases h; exact ⟨alloc, rfl, rfl⟩
    · rintro ⟨alloc', ha, rfl⟩; cases ha; rfl

theorem evalSubset_isSome (tiers : List Tier)
    {cands : List (Line × List Offer)} {S : List String} {alloc : List AllocEntry}
    (h : assignLines S cands = some alloc) :
    ∃ bS, evalSubset tiers cands S = some bS := by
  unfold evalSubset
  rw [h]
  exact ⟨_, rfl⟩

theorem evalSubset_none_iff {tiers : List Tier}
    {cands : List (Line × List Offer)} {S : List String} :
    evalSubset tiers cands S = none ↔ assignLines S cands = none := by
  unfold evalSubset
  cases har : assignLines S cands with
  | none => simp
  | some alloc => simp

theorem optimise_ok_shape {prices : List Offer} {basket : List Line}
    {tiers : List Tier} {b : BestResult}
    (h : optimise_basket prices basket tiers = .ok b) :
    basket ≠ [] ∧
    basket.find? (fun l => (lineCandidates prices l).isEmpty) = none ∧
    pickBest ((candidateSubsets prices basket).filterMap
        (evalSubset tiers (candidatesOf prices basket))) = some b := by
  unfold optimise_basket at h
  by_cases hne : basket = []
  · rw [if_pos hne] at h; cases h
  · rw [if_neg hne] at h
    cases hfind : basket.find? (fun l => (lineCandidates prices l).isEmpty) with
    | some l => rw [hfind] at h; cases h
    | none =>
      rw [hfind] at h
      cases hpick : pickBest ((candidateSubsets prices basket).filterMap
          (evalSubset tiers (candidatesOf prices basket))) with
      | none => rw [hpick] at h; cases h
      | some b' =>
        rw [hpick] at h
        cases h
        exact ⟨hne, rfl, rfl⟩

theorem forall₂_mem_right {α β : Type} {R : α → β → Prop} {l1 : List α}
    {l2 : List β} (h : List.Forall₂ R l1 l2) {b : β} (hb : b ∈ l2) :
    ∃ a ∈ l1, R a b := by
  induction h with
  | nil => cases hb
  | cons hR hrest ih =>
    rcases List.mem_cons.mp hb with rfl | hb
    · exact ⟨_, List.mem_cons_self _ _, hR⟩
    · obtain ⟨a, ha, hab⟩ := ih hb
      exact ⟨a, List.mem_cons_of_mem _ ha, hab⟩

theorem optimise_ok_elim {prices : List Offer} {basket : List Line}
    {tiers : List Tier} {b : BestResult}
    (h : optimise_basket prices basket tiers = .ok b) :
    ∃ S ∈ candidateSubsets prices basket,
      evalSubset tiers (candidatesOf prices basket) S = some b := by
  obtain ⟨-, -, hpick⟩ := optimise_ok_shape h
  exact List.mem_filterMap.mp (pickBest_mem hpick)

theorem self_mem_combinations (l : List String) : l ∈ combinations l.length l := by
  induction l with
  | nil => simp [combinations]
  | cons x xs ih =>
    simp only [List.length_cons, combinations]
    exact List.mem_append_left _ (List.mem_map.mpr ⟨xs, ih, rfl⟩)

theorem combinations_sublist {r : Nat} {l c : List String}
    (h : c ∈ combinations r l) : c.Sublist l := by
  induction l generalizing r c with
  | nil =>
    cases r with
    | zero => simp [combinations] at h; subst h; exact List.Sublist.refl []
    | succ n => simp [combinations] at h
  | cons x xs ih =>
    cases r with
    | zero => simp [combinations] at h; subst h; exact List.nil_sublist _
    | succ n =>
      simp only [combinations, List.mem_append, List.mem_map] at h
      rcases h with ⟨c', hc', rfl⟩ | h
      · exact List.Sublist.cons₂ x (ih hc')
      · exact List.Sublist.cons x (ih h)

theorem mem_subsetsUpTo {cap : Nat} {l S : List String} :
    S ∈ subsetsUpTo cap l ↔ ∃ i < cap, S ∈ combinations (i + 1) l := by
  unfold subsetsUpTo
  rw [List.mem_flatMap]
  simp [List.mem_range]

theorem self_mem_subsetsUpTo {cap : Nat} {l : List String}
    (h1 : 1 ≤ l.length) (h2 : l.length ≤ cap) : l ∈ subsetsUpTo cap l := by
  rw [mem_subsetsUpTo]
  refine ⟨l.length - 1, by omega, ?_⟩
  have he : l.length - 1 + 1 = l.length := by omega
  rw [he]
  exact self_mem_combinations l

theorem allSuppliers_nodup (cands : List (Line × List Offer)) :
    (allSuppliers cands).Nodup :=
  (List.perm_insertionSort _ _).symm.nodup (List.nodup_dedup _)

theorem candidateSubsets_nodup {prices : List Offer} {basket : List Line}
    {S : List String} (hS : S ∈ candidateSubsets prices basket) : S.Nodup := by
  obtain ⟨i, -, hc⟩ := mem_subsetsUpTo.mp hS
  exact (combinations_sublist hc).nodup (allSuppliers_nodup _)

theorem covers_allSuppliers {prices : List Offer} {basket : List Line}
    (h : ∀ l ∈ basket, lineCandidates prices l ≠ []) :
    covers (allSuppliers (candidatesOf prices basket))
      (candidatesOf prices basket) := by
  intro p hp
  obtain ⟨l, hl, rfl⟩ := List.mem_map.mp hp
  obtain ⟨o, ho⟩ := List.exists_mem_of_ne_nil _ (h l hl)
  exact ⟨o, ho, mem_allSuppliers.mpr ⟨(l, lineCandidates prices l), hp, o, ho, rfl⟩⟩

theorem allSuppliers_ne_nil {prices : List Offer} {basket : List Line}
    (hne : basket ≠ []) (h : ∀ l ∈ basket, lineCandidates prices l ≠ []) :
    allSuppliers (candidatesOf prices basket) ≠ [] := by
  obtain ⟨l, hl⟩ := List.exists_mem_of_ne_nil _ hne
  obtain ⟨o, ho⟩ := List.exists_mem_of_ne_nil _ (h l hl)
  intro hnil
  have hmem : o.supplier ∈ allSuppliers (candidatesOf prices basket) :=
    mem_allSuppliers.mpr
      ⟨(l, lineCandidates prices l), List.mem_map.mpr ⟨l, hl, rfl⟩, o, ho, rfl⟩
  rw [hnil] at hmem
  exact absurd hmem (List.not_mem_nil _)

theorem universe_mem_candidateSubsets {prices : List Offer} {basket : List Line}
    (hne : basket ≠ []) (h : ∀ l ∈ basket, lineCandidates prices l ≠ [])
    (hk : (allSuppliers (candidatesOf prices basket)).length ≤ 15) :
    allSuppliers (candidatesOf prices basket) ∈ candidateSubsets prices basket := by
  unfold candidateSubsets
  exact self_mem_subsetsUpTo
    (List.length_pos.mpr (allSuppliers_ne_nil hne h))
    (le_min (le_refl _) hk)

theorem optimise_succeeds {prices : List Offer} {basket : List Line}
    (tiers : List Tier) (hne : basket ≠ [])
    (h : ∀ l ∈ basket, lineCandidates prices l ≠ [])
    (hk : (allSuppliers (candidatesOf prices basket)).length ≤ 15) :
    ∃ b, optimise_basket prices basket tiers = .ok b := by
  have hfind : basket.find? (fun l => (lineCandidates prices l).isEmpty) = none := by
    rw [List.find?_eq_none]
    intro l hl
    simpa [List.isEmpty_iff] using h l hl
  have hsome : (assignLines (allSuppliers (candidatesOf prices basket))
      (candidatesOf prices basket)).isSome = true :=
    assignLines_isSome_iff.mpr (covers_allSuppliers h)
  obtain ⟨alloc, halloc⟩ := Option.isSome_iff_exists.mp hsome
  obtain ⟨bU, hbU⟩ := evalSubset_isSome tiers halloc
  have hmem : bU ∈ (candidateSubsets prices basket).filterMap
      (evalSubset tiers (candidatesOf prices basket)) :=
    List.mem_filterMap.mpr ⟨_, universe_mem_candidateSubsets hne h hk, hbU⟩
  rcases pickBest_spec ((candidateSubsets prices basket).filterMap
      (evalSubset tiers (candidatesOf prices basket))) with ⟨hnil, _⟩ | ⟨b, hb, _, _⟩
  · rw [hnil] at hmem
    exact absurd hmem (List.not_mem_nil _)
  · refine ⟨b, ?_⟩
    unfold optimise_basket
    rw [if_neg hne, hfind, hb]

theorem optimise_noFeasible_iff {prices : List Offer} {basket : List Line}
    {tiers : List Tier} :
    optimise_basket prices basket tiers = .error .noFeasible ↔
      basket ≠ [] ∧ (∀ l ∈ basket, lineCandidates prices l ≠ []) ∧
        ∀ S ∈ candidateSubsets prices basket,
          ¬ covers S (candidatesOf prices basket) := by
  unfold optimise_basket
  by_cases hne : basket = []
  · rw [if_pos hne]
    constructor
    · intro h
      injection h with h'
      exact OptError.noConfusion h'
    · rintro ⟨hb, -, -⟩
      exact absurd hne hb
  · rw [if_neg hne]
    cases hfind : basket.find? (fun l => (lineCandidates prices l).isEmpty) with
    | some l =>
      constructor
      · intro h
        injection h with h'
        exact OptError.noConfusion h'
      · rintro ⟨-, hall, -⟩
        have hpl := List.find?_some
          (p := fun l => (lineCandidates prices l).isEmpty) hfind
        exact absurd (List.isEmpty_iff.mp hpl)
          (hall l (List.mem_of_find?_eq_some hfind))
    | none =>
      cases hpick : pickBest ((candidateSubsets prices basket).filterMap
          (evalSubset tiers (candidatesOf prices basket))) with
      | none =>
        constructor
        · intro _
          refine ⟨hne, ?_, ?_⟩
          · intro l hl
            simpa [List.isEmpty_iff] using List.find?_eq_none.mp hfind l hl
          · intro S hS hcov
            have hnone := List.filterMap_eq_nil_iff.mp
              (pickBest_eq_none_iff.mp hpick) S hS
            obtain ⟨alloc, halloc⟩ := Option.isSome_iff_exists.mp
              (assignLines_isSome_iff.mpr hcov)
            obtain ⟨bS, hbS⟩ := evalSubset_isSome tiers halloc
            rw [hnone] at hbS
            exact Option.noConfusion hbS
        · intro _
          rfl
      | some b =>
        constructor
        · intro h
          exact Except.noConfusion h
        · rintro ⟨-, -, hnc⟩
          obtain ⟨S, hS, hev⟩ := List.mem_filterMap.mp (pickBest_mem hpick)
          obtain ⟨alloc, halloc, -⟩ := evalSubset_some_iff.mp hev
          have hcov : covers S (candidatesOf prices basket) :=
            assignLines_isSome_iff.mp (by rw [halloc]; rfl)
          exact absurd hcov (hnc S hS)

theorem mem_lotChargesFor {tiers : List Tier} {S : List String}
    {alloc : List AllocEntry} {e : LotEntry} :
    e ∈ lotChargesFor tiers S alloc ↔
      ∃ s ∈ S, ¬ allocTonnes alloc s ≤ 0 ∧
        0 < tier_charge_per_t (allocTonnes alloc s) tiers ∧
        e = ⟨s, allocTonnes alloc s,
             tier_charge_per_t (allocTonnes alloc s) tiers,
             allocTonnes alloc s *
               tier_charge_per_t (allocTonnes alloc s) tiers⟩ := by
  unfold lotChargesFor
  rw [List.mem_filterMap]
  constructor
  · rintro ⟨s, hs, hf⟩
    by_cases h1 : allocTonnes alloc s ≤ 0
    · simp [h1] at hf
    · by_cases h2 : 0 < tier_charge_per_t (allocTonnes alloc s) tiers
      · simp [h1, h2] at hf
        exact ⟨s, hs, h1, h2, hf.symm⟩
      · simp [h1, h2] at hf
  · rintro ⟨s, hs, h1, h2, rfl⟩
    exact ⟨s, hs, by simp [h1, h2]⟩

theorem lotChargesFor_supplier {tiers : List Tier} {alloc : List AllocEntry}
    {s : String} {e : LotEntry}
    (hf : (fun s =>
      let t := allocTonnes alloc s
      if t ≤ 0 then none
      else
        let cpt := tier_charge_per_t t tiers
        if 0 < cpt then some (⟨s, t, cpt, t * cpt⟩ : LotEntry) else none) s
        = some e) :
    e.supplier = s := by
  by_cases h1 : allocTonnes alloc s ≤ 0
  · simp [h1] at hf
  · by_cases h2 : 0 < tier_charge_per_t (allocTonnes alloc s) tiers
    · simp [h1, h2] at hf
      rw [← hf]
    · simp [h1, h2] at hf

theorem filterMap_map_nodup {α β : Type} {f : α → Option β} {g : β → α}
    (hf : ∀ a b, f a = some b → g b = a) {l : List α} (hl : l.Nodup) :
    ((l.filterMap f).map g).Nodup := by
  induction l with
  | nil => simp
  | cons a l ih =>
    rw [List.nodup_cons] at hl
    rw [List.filterMap_cons]
    cases hfa : f a with
    | none => exact ih hl.2
    | some b =>
      rw [List.map_cons, List.nodup_cons]
      refine ⟨?_, ih hl.2⟩
      intro hmem
      obtain ⟨e, he, hge⟩ := List.mem_map.mp hmem
      obtain ⟨a', ha', hfa'⟩ := List.mem_filterMap.mp he
      have h1 : g e = a' := hf a' e hfa'
      have h2 : g b = a := hf a b hfa
      rw [h1, h2] at hge
      rw [hge] at ha'
      exact hl.1 ha'

/-- Proof-side relation for C7: two tier rows that agree on range and activity
while the second charges at least as much. -/
def TierLE (a b : Tier) : Prop :=
  a.min_t = b.min_t ∧ a.max_t = b.max_t ∧ a.active = b.active ∧
    a.charge_per_t ≤ b.charge_per_t

/-- The amount supplier `s` contributes to `lot_charge_total` (optimizer.py
lines 109-115), as a function. -/
def lotContribution (tiers : List Tier) (alloc : List AllocEntry)
    (s : String) : ℚ :=
  let t := allocTonnes alloc s
  if t ≤ 0 then 0
  else
    let cpt := tier_charge_per_t t tiers
    if 0 < cpt then t * cpt else 0

theorem forall₂_tierLE_refl (l : List Tier) : List.Forall₂ TierLE l l :=
  List.forall₂_same.mpr (fun x _ => ⟨rfl, rfl, rfl, le_refl _⟩)

theorem forall₂_tierLE_set {tiers : List Tier} {i : Nat} {r r' : Tier}
    (hget : tiers[i]? = some r) (hmin : r'.min_t = r.min_t)
    (hmax : r'.max_t = r.max_t) (hact : r'.active = r.active)
    (hch : r.charge_per_t ≤ r'.charge_per_t) :
    List.Forall₂ TierLE tiers (tiers.set i r') := by
  induction tiers generalizing i with
  | nil => cases hget
  | cons a l ih =>
    cases i with
    | zero =>
      have ha : a = r := by simpa using hget
      subst ha
      exact List.Forall₂.cons ⟨hmin.symm, hmax.symm, hact.symm, hch⟩
        (forall₂_tierLE_refl l)
    | succ n =>
      exact List.Forall₂.cons ⟨rfl, rfl, rfl, le_refl _⟩
        (ih (by simpa using hget))

theorem forall₂_filter_active {l l' : List Tier}
    (h : List.Forall₂ TierLE l l') :
    List.Forall₂ TierLE (l.filter (fun r => r.active == 1))
      (l'.filter (fun r => r.active == 1)) := by
  induction h with
  | nil => exact .nil
  | @cons a b l1 l2 hR hrest ih =>
    have heq : ((a.active == 1) : Bool) = (b.active == 1) := by rw [hR.2.2.1]
    rw [List.filter_cons, List.filter_cons, ← heq]
    by_cases hc : (a.active == 1) = true
    · simp only [hc, if_true]
      exact .cons hR ih
    · simp only [Bool.not_eq_true] at hc
      simp only [hc, Bool.false_eq_true, if_false]
      exact ih

theorem forall₂_orderedInsert {a b : Tier} {l l' : List Tier}
    (hab : TierLE a b) (h : List.Forall₂ TierLE l l') :
    List.Forall₂ TierLE (List.orderedInsert tierLE a l)
      (List.orderedInsert tierLE b l') := by
  induction h with
  | nil => exact .cons hab .nil
  | @cons x y l1 l2 hR hrest ih =>
    have hcond : tierLE a x ↔ tierLE b y := by
      unfold tierLE
      rw [hab.1, hR.1]
    by_cases hc : tierLE a x
    · rw [List.orderedInsert, if_pos hc, List.orderedInsert,
        if_pos (hcond.mp hc)]
      exact .cons hab (.cons hR hrest)
    · rw [List.orderedInsert, if_neg hc, List.orderedInsert,
        if_neg (fun hcc => hc (hcond.mpr hcc))]
      exact .cons hR ih

theorem forall₂_insertionSort {l l' : List Tier}
    (h : List.Forall₂ TierLE l l') :
    List.Forall₂ TierLE (List.insertionSort tierLE l)
      (List.insertionSort tierLE l') := by
  induction h with
  | nil => exact .nil
  | cons hR hrest ih =>
    simp only [List.insertionSort]
    exact forall₂_orderedInsert hR ih

theorem find?_tierMatches_rel {t : ℚ} {l l' : List Tier}
    (h : List.Forall₂ TierLE l l') :
    (l.find? (tierMatches t) = none ∧ l'.find? (tierMatches t) = none) ∨
    ∃ a b, l.find? (tierMatches t) = some a ∧
      l'.find? (tierMatches t) = some b ∧ TierLE a b := by
  induction h with
  | nil => exact Or.inl ⟨rfl, rfl⟩
  | @cons x y l1 l2 hR hrest ih =>
    have hm : tierMatches t x = tierMatches t y := by
      unfold tierMatches
      rw [hR.1, hR.2.1]
    by_cases hc : tierMatches t x = true
    · exact Or.inr ⟨x, y, List.find?_cons_of_pos _ hc,
        List.find?_cons_of_pos _ (hm ▸ hc), hR⟩
    · rw [List.find?_cons_of_neg _ (by simpa using hc),
        List.find?_cons_of_neg _ (by rw [← hm]; simpa using hc)]
      exact ih

theorem tier_charge_per_t_mono {t : ℚ} {tiers tiers' : List Tier}
    (h : List.Forall₂ TierLE tiers tiers') :
    tier_charge_per_t t tiers ≤ tier_charge_per_t t tiers' := by
  unfold tier_charge_per_t
  by_cases ht : t ≤ 0
  · rw [if_pos ht, if_pos ht]
  · rw [if_neg ht, if_neg ht]
    rcases find?_tierMatches_rel (t := t)
        (forall₂_insertionSort (forall₂_filter_active h)) with
      ⟨h1, h2⟩ | ⟨a, b, h1, h2, hab⟩
    · rw [h1, h2]
    · rw [h1, h2]
      exact hab.2.2.2

theorem lotChargesFor_total_eq {tiers : List Tier} {S : List String}
    {alloc : List AllocEntry} :
    ((lotChargesFor tiers S alloc).map (fun e => e.lotCharge)).sum =
      (S.map (lotContribution tiers alloc)).sum := by
  induction S with
  | nil => rfl
  | cons s S ih =>
    unfold lotChargesFor at ih ⊢
    rw [List.filterMap_cons]
    by_cases h1 : allocTonnes alloc s ≤ 0
    · simp only [List.map_cons, List.sum_cons]
      simp [lotContribution, h1, ih]
    · by_cases h2 : 0 < tier_charge_per_t (allocTonnes alloc s) tiers
      · simp only [List.map_cons, List.sum_cons]
        simp [lotContribution, h1, h2, ih]
      · simp only [List.map_cons, List.sum_cons]
        simp [lotContribution, h1, h2, ih]

theorem lotContribution_mono {tiers tiers' : List Tier}
    {alloc : List AllocEntry} {s : String}
    (h : List.Forall₂ TierLE tiers tiers') :
    lotContribution tiers alloc s ≤ lotContribution tiers' alloc s := by
  unfold lotContribution
  by_cases h1 : allocTonnes alloc s ≤ 0
  · rw [if_pos h1, if_pos h1]
  · rw [if_neg h1, if_neg h1]
    have hc := tier_charge_per_t_mono (t := allocTonnes alloc s) h
    have htpos : 0 < allocTonnes alloc s := not_le.mp h1
    by_cases h2 : 0 < tier_charge_per_t (allocTonnes alloc s) tiers
    · rw [if_pos h2, if_pos (lt_of_lt_of_le h2 hc)]
      exact mul_le_mul_of_nonneg_left hc (le_of_lt htpos)
    · rw [if_neg h2]
      by_cases h3 : 0 < tier_charge_per_t (allocTonnes alloc s) tiers'
      · rw [if_pos h3]
        exact mul_nonneg (le_of_lt htpos) (le_of_lt h3)
      · rw [if_neg h3]

theorem evalSubset_mono {tiers tiers' : List Tier}
    {cands : List (Line × List Offer)} {S : List String} {r : BestResult}
    (h : List.Forall₂ TierLE tiers tiers')
    (hr : evalSubset tiers cands S = some r) :
    ∃ r2, evalSubset tiers' cands S = some r2 ∧ r.total ≤ r2.total := by
  obtain ⟨alloc, halloc, rfl⟩ := evalSubset_some_iff.mp hr
  refine ⟨_, evalSubset_some_iff.mpr ⟨alloc, halloc, rfl⟩, ?_⟩
  have hle : ((lotChargesFor tiers S alloc).map (fun e => e.lotCharge)).sum ≤
      ((lotChargesFor tiers' S alloc).map (fun e => e.lotCharge)).sum := by
    rw [lotChargesFor_total_eq, lotChargesFor_total_eq]
    exact List.sum_le_sum (fun s _ => lotContribution_mono h)
  exact add_le_add_left hle _

/-- The row `optimise_basket` builds for line `l` under subset `S`, as a total
function (defaulting on infeasible lines, which feasible runs never hit). -/
def lineChoice (prices : List Offer) (S : List String) (l : Line) : AllocEntry :=
  (perLine prices S l).getD default

/-- Proof-side relation for C8: two results that agree on all cost figures and
whose allocations arise from one common per-line choice applied to the two
baskets. -/
def permRel (basket basket' : List Line) (r r' : BestResult) : Prop :=
  r.total = r'.total ∧ r.base_cost = r'.base_cost ∧
  r.lot_charge_total = r'.lot_charge_total ∧
  ∃ f : Line → AllocEntry, r.allocation = basket.map f ∧
    r'.allocation = basket'.map f

theorem allSuppliers_perm_eq {prices : List Offer} {basket basket' : List Line}
    (hperm : basket.Perm basket') :
    allSuppliers (candidatesOf prices basket) =
      allSuppliers (candidatesOf prices basket') := by
  unfold allSuppliers candidatesOf
  refine List.eq_of_perm_of_sorted (r := strLE) ?_
    (List.sorted_insertionSort strLE _) (List.sorted_insertionSort strLE _)
  refine ((List.perm_insertionSort _ _).trans ?_).trans
    (List.perm_insertionSort _ _).symm
  exact List.Perm.dedup (List.Perm.flatMap_right _ (hperm.map _))

theorem covers_perm {prices : List Offer} {S : List String}
    {basket basket' : List Line} (hperm : basket.Perm basket') :
    covers S (candidatesOf prices basket) ↔
      covers S (candidatesOf prices basket') := by
  have haux : ∀ {bk bk' : List Line}, bk.Perm bk' →
      covers S (candidatesOf prices bk) → covers S (candidatesOf prices bk') := by
    intro bk bk' hp h p hpp
    obtain ⟨l, hl, rfl⟩ := List.mem_map.mp hpp
    exact h (l, lineCandidates prices l)
      (List.mem_map.mpr ⟨l, hp.mem_iff.mpr hl, rfl⟩)
  exact ⟨haux hperm, haux hperm.symm⟩

theorem assignLines_eq_map {prices : List Offer} {S : List String}
    {basket : List Line} {alloc : List AllocEntry}
    (h : assignLines S (candidatesOf prices basket) = some alloc) :
    alloc = basket.map (lineChoice prices S) := by
  induction basket generalizing alloc with
  | nil =>
    cases h
    rfl
  | cons l bk ih =>
    simp only [candidatesOf, List.map_cons] at h
    cases hh : ((lineCandidates prices l).filter
        (fun o => S.contains o.supplier)).head? with
    | none =>
      simp only [assignLines, hh] at h
      exact Option.noConfusion h
    | some o =>
      simp only [assignLines, hh] at h
      cases har : assignLines S (bk.map (fun l => (l, lineCandidates prices l))) with
      | none =>
        rw [har] at h
        exact Option.noConfusion h
      | some alloc2 =>
        rw [har] at h
        cases h
        have h2 := ih har
        rw [List.map_cons, ← h2]
        have hl : lineChoice prices S l = entryOf l o := by
          unfold lineChoice perLine
          rw [hh]
          rfl
        rw [hl]

theorem allocTonnes_map_perm {f : Line → AllocEntry} {bk bk' : List Line}
    (hperm : bk.Perm bk') (s : String) :
    allocTonnes (bk.map f) s = allocTonnes (bk'.map f) s := by
  unfold allocTonnes
  exact List.Perm.sum_eq (List.Perm.map _ (List.Perm.filter _ (hperm.map f)))

theorem lotChargesFor_map_perm {tiers : List Tier} {S : List String}
    {f : Line → AllocEntry} {bk bk' : List Line} (hperm : bk.Perm bk') :
    lotChargesFor tiers S (bk.map f) = lotChargesFor tiers S (bk'.map f) := by
  unfold lotChargesFor
  simp only [allocTonnes_map_perm hperm]

theorem evalSubset_perm_rel {prices : List Offer} {tiers : List Tier}
    {S : List String} {basket basket' : List Line} {r : BestResult}
    (hperm : basket.Perm basket')
    (hr : evalSubset tiers (candidatesOf prices basket) S = some r) :
    ∃ r', evalSubset tiers (candidatesOf prices basket') S = some r' ∧
      permRel basket basket' r r' := by
  obtain ⟨alloc, halloc, rfl⟩ := evalSubset_some_iff.mp hr
  have hcov : covers S (candidatesOf prices basket) :=
    assignLines_isSome_iff.mp (by rw [halloc]; rfl)
  obtain ⟨alloc', halloc'⟩ := Option.isSome_iff_exists.mp
    (assignLines_isSome_iff.mpr ((covers_perm hperm).mp hcov))
  have hmap := assignLines_eq_map halloc
  have hmap' := assignLines_eq_map halloc'
  subst hmap hmap'
  have hbase : ((basket.map (lineChoice prices S)).map
        (fun a => a.lineCost)).sum =
      ((basket'.map (lineChoice prices S)).map (fun a => a.lineCost)).sum :=
    List.Perm.sum_eq (List.Perm.map _ (hperm.map _))
  have hlots : lotChargesFor tiers S (basket.map (lineChoice prices S)) =
      lotChargesFor tiers S (basket'.map (lineChoice prices S)) :=
    lotChargesFor_map_perm hperm
  refine ⟨_, evalSubset_some_iff.mpr ⟨_, halloc', rfl⟩,
    ?_, ?_, ?_, lineChoice prices S, rfl, rfl⟩
  · rw [hbase, hlots]
  · exact hbase
  · rw [hlots]

theorem filterMap_forall₂_of_rel {α β : Type} {f g : α → Option β}
    {R : β → β → Prop} {l : List α}
    (h : ∀ a ∈ l, (f a = none ∧ g a = none) ∨
      ∃ x y, f a = some x ∧ g a = some y ∧ R x y) :
    List.Forall₂ R (l.filterMap f) (l.filterMap g) := by
  induction l with
  | nil => exact .nil
  | cons a l ih =>
    rw [List.filterMap_cons, List.filterMap_cons]
    rcases h a (List.mem_cons_self _ _) with ⟨h1, h2⟩ | ⟨x, y, h1, h2, hxy⟩
    · rw [h1, h2]
      exact ih (fun a ha => h a (List.mem_cons_of_mem _ ha))
    · rw [h1, h2]
      exact .cons hxy (ih (fun a ha => h a (List.mem_cons_of_mem _ ha)))

theorem pickBest_go_forall₂ {R : BestResult → BestResult → Prop}
    (hR : ∀ x y, R x y → x.total = y.total) {L L' : List BestResult}
    (h : List.Forall₂ R L L') :
    ∀ {a a'}, R a a' →
      ∃ c c', L.foldl (fun best r =>
          match best with
          | none => some r
          | some b => if r.total < b.total then some r else some b) (some a)
            = some c ∧
        L'.foldl (fun best r =>
          match best with
          | none => some r
          | some b => if r.total < b.total then some r else some b) (some a')
            = some c' ∧ R c c' := by
  induction h with
  | nil =>
    intro a a' hacc
    exact ⟨a, a', rfl, rfl, hacc⟩
  | @cons x y L1 L2 hxy hrest ih =>
    intro a a' hacc
    have ht : x.total = y.total := hR x y hxy
    have ha : a.total = a'.total := hR a a' hacc
    by_cases hc : x.total < a.total
    · have hc' : y.total < a'.total := by rw [← ht, ← ha]; exact hc
      obtain ⟨c, c', h1, h2, hcc⟩ := ih hxy
      exact ⟨c, c', by simpa [hc] using h1, by simpa [hc'] using h2, hcc⟩
    · have hc' : ¬ y.total < a'.total := by rw [← ht, ← ha]; exact hc
      obtain ⟨c, c', h1, h2, hcc⟩ := ih hacc
      exact ⟨c, c', by simpa [hc] using h1, by simpa [hc'] using h2, hcc⟩

theorem pickBest_some_forall₂ {R : BestResult → BestResult → Prop}
    (hR : ∀ x y, R x y → x.total = y.total) {L L' : List BestResult}
    (h : List.Forall₂ R L L') {b : BestResult} (hb : pickBest L = some b) :
    ∃ b', pickBest L' = some b' ∧ R b b' := by
  cases h with
  | nil => cases hb
  | @cons x y L1 L2 hxy hrest =>
    obtain ⟨c, c', hc, hc', hcc⟩ := pickBest_go_forall₂ hR hrest hxy
    have hb2 : L1.foldl (fun best r =>
        match best with
        | none => some r
        | some b => if r.total < b.total then some r else some b) (some x)
          = some b := hb
    rw [hc] at hb2
    injection hb2 with hb3
    exact ⟨c', hc', hb3 ▸ hcc⟩

/-! ### Concrete inputs used by witnesses and counterexamples -/

/-- The spec's §8 scenario price table: `{SupplierA: 300, SupplierB: 280}`. -/
def Pexa : List Offer :=
  [⟨"A", "Urea", "X", "W1", 300⟩, ⟨"B", "Urea", "X", "W1", 280⟩]

/-- The spec's §8 scenario basket: one line, Urea @ X W1, 10 t. -/
def Bexa : List Line := [⟨"Urea", "X", "W1", 10⟩]

/-- The spec's §8 scenario tier table: `<24t → £15/t`. -/
def Texa : List Tier := [⟨0, some 24, 15, 1⟩]

/-- The result of `optimise_basket Pexa Bexa Texa`: SupplierB at 280,
`baseCost = 2800`, lot charge `150`, `total = 2950`. -/
def Rexa : BestResult :=
  ⟨2950, 2800, 150, [⟨"Urea", "X", "W1", 10, "B", 280, 2800⟩], [⟨"B", 10, 15, 150⟩]⟩

/-- Two suppliers quoting the same line: A at 100, B at 101. -/
def Pcex : List Offer :=
  [⟨"A", "U", "X", "W", 100⟩, ⟨"B", "U", "X", "W", 101⟩]

/-- Two identical 12 t lines. -/
def Bcex : List Line := [⟨"U", "X", "W", 12⟩, ⟨"U", "X", "W", 12⟩]

/-- One tier charging £15/t from 24 t up (a volume charge). -/
def Tcex : List Tier := [⟨24, none, 15, 1⟩]

/-- The split assignment: line 1 from A, line 2 from B. -/
def CHcex : List Offer :=
  [⟨"A", "U", "X", "W", 100⟩, ⟨"B", "U", "X", "W", 101⟩]

/-- The spec's §8 two-tier table: `<24t → £15/t`, `≥24t → £0/t`. -/
def T9 : List Tier := [⟨0, some 24, 15, 1⟩, ⟨24, none, 0, 1⟩]

/-- A single supplier quoting the shared line of the two-line scenario. -/
def P9 : List Offer := [⟨"A", "U", "X", "W", 100⟩]

/-- The two lines of the combined-tonnage scenario: 14 t and 16 t. -/
def B9 : List Line := [⟨"U", "X", "W", 14⟩, ⟨"U", "X", "W", 16⟩]

/-- The result of `optimise_basket P9 B9 T9`: both lines to A, 30 t combined,
zero lot charge. -/
def R9 : BestResult :=
  ⟨3000, 3000, 0,
    [⟨"U", "X", "W", 14, "A", 100, 1400⟩, ⟨"U", "X", "W", 16, "A", 100, 1600⟩],
    []⟩

/-- `B9` with its two lines swapped. -/
def B9r : List Line := [⟨"U", "X", "W", 16⟩, ⟨"U", "X", "W", 14⟩]

/-! ### Claims -/

/-- C2: `tier_charge_per_t` returns `0` for `tonnes ≤ 0`; for positive tonnage
it returns `0` when no active tier's inclusive `[MinTonnes, MaxTonnes]` range
contains the tonnage, and otherwise the charge of a containing active tier
whose `MinTonnes` is minimal among all containing active tiers (the first in
ascending `MinTonnes` order); it is a total function, so it never fails. -/
theorem tier_charge_resolution (tonnes : ℚ) (tiers : List Tier) :
    (tonnes ≤ 0 → tier_charge_per_t tonnes tiers = 0) ∧
    (0 < tonnes →
      ((∀ r ∈ tiers, r.active = 1 → ¬ tierContains r tonnes) →
          tier_charge_per_t tonnes tiers = 0) ∧
      (∀ r ∈ tiers, r.active = 1 → tierContains r tonnes →
        ∃ r', r' ∈ tiers ∧ r'.active = 1 ∧ tierContains r' tonnes ∧
          tier_charge_per_t tonnes tiers = r'.charge_per_t ∧
          ∀ r'' ∈ tiers, r''.active = 1 → tierContains r'' tonnes →
            r'.min_t ≤ r''.min_t)) := by
  constructor
  · intro h
    unfold tier_charge_per_t
    rw [if_pos h]
  · intro hpos
    have hnle : ¬ tonnes ≤ 0 := not_le.mpr hpos
    constructor
    · intro hnone
      unfold tier_charge_per_t
      rw [if_neg hnle]
      have hfind : (List.insertionSort tierLE
          (tiers.filter (fun r => r.active == 1))).find? (tierMatches tonnes)
          = none := by
        rw [List.find?_eq_none]
        intro r hr
        obtain ⟨hrt, hract⟩ := List.mem_filter.mp
          ((List.perm_insertionSort _ _).mem_iff.mp hr)
        intro hm
        exact hnone r hrt (by simpa using hract) ((tierMatches_iff tonnes r).mp hm)
      rw [hfind]
    · intro r hr hract hrc
      have hrA : r ∈ List.insertionSort tierLE
          (tiers.filter (fun x => x.active == 1)) :=
        (List.perm_insertionSort _ _).mem_iff.mpr
          (List.mem_filter.mpr ⟨hr, by simpa using hract⟩)
      have hsome : ((List.insertionSort tierLE
          (tiers.filter (fun x => x.active == 1))).find?
            (tierMatches tonnes)).isSome = true :=
        List.find?_isSome.mpr ⟨r, hrA, (tierMatches_iff tonnes r).mpr hrc⟩
      obtain ⟨r', hr'⟩ := Option.isSome_iff_exists.mp hsome
      obtain ⟨hr't, hr'act⟩ := List.mem_filter.mp
        ((List.perm_insertionSort _ _).mem_iff.mp (List.mem_of_find?_eq_some hr'))
      refine ⟨r', hr't, by simpa using hr'act,
        (tierMatches_iff tonnes r').mp (List.find?_some hr'), ?_, ?_⟩
      · unfold tier_charge_per_t
        rw [if_neg hnle, hr']
      · intro r'' hr'' h2 h3
        exact find?_sorted_first (r := tierLE)
          (List.sorted_insertionSort tierLE _)
          (fun x => le_refl x.min_t) hr' r''
          ((List.perm_insertionSort _ _).mem_iff.mpr
            (List.mem_filter.mpr ⟨hr'', by simpa using h2⟩))
          ((tierMatches_iff tonnes r'').mpr h3)

/-- Witness for C2 at concrete inputs: a negative tonnage resolves to `0`,
and 10 t against the `<24t → £15/t` table resolves through a containing
tier of minimal `MinTonnes`. -/
theorem tier_charge_resolution_witness :
    tier_charge_per_t (-1) [] = 0 ∧
    ∃ r', r' ∈ Texa ∧ r'.active = 1 ∧ tierContains r' 10 ∧
      tier_charge_per_t 10 Texa = r'.charge_per_t ∧
      ∀ r'' ∈ Texa, r''.active = 1 → tierContains r'' 10 →
        r'.min_t ≤ r''.min_t := by
  constructor
  · exact (tier_charge_resolution (-1) []).1 (by norm_num)
  · exact ((tier_charge_resolution 10 Texa).2 (by norm_num)).2
      ⟨0, some 24, 15, 1⟩ (by decide) rfl (by decide)

/-- C4: calling `optimise_basket` with an empty basket fails with the
empty-basket error and returns nothing else. -/
theorem optimise_empty_basket_fails (prices : List Offer) (tiers : List Tier) :
    optimise_basket prices [] tiers = .error .emptyBasket := by
  unfold optimise_basket
  rw [if_pos rfl]

/-- C5: on a non-empty basket, if some line has no matching price row, the
whole call fails with `NoSupplierForLineError` naming an unmatched line's
product, location and window (the first such line), and no result is
returned. -/
theorem optimise_unmatched_line_fails (prices : List Offer) (basket : List Line)
    (tiers : List Tier) (hne : basket ≠ [])
    (hbad : ∃ l ∈ basket, lineCandidates prices l = []) :
    ∃ l ∈ basket, lineCandidates prices l = [] ∧
      optimise_basket prices basket tiers =
        .error (.noSupplierForLine l.product l.location l.window) := by
  obtain ⟨l0, hl0, hl0e⟩ := hbad
  have hsome : (basket.find? (fun l => (lineCandidates prices l).isEmpty)).isSome
      = true :=
    List.find?_isSome.mpr ⟨l0, hl0, by simp [hl0e]⟩
  obtain ⟨l1, hl1⟩ := Option.isSome_iff_exists.mp hsome
  have hp := List.find?_some
    (p := fun l => (lineCandidates prices l).isEmpty) hl1
  refine ⟨l1, List.mem_of_find?_eq_some hl1, List.isEmpty_iff.mp hp, ?_⟩
  unfold optimise_basket
  rw [if_neg hne, hl1]

/-- Witness for C5: a one-line basket with an empty price table fails naming
that line. -/
theorem optimise_unmatched_line_fails_witness :
    ∃ l ∈ [Line.mk "P" "L" "W" 1], lineCandidates [] l = [] ∧
      optimise_basket [] [Line.mk "P" "L" "W" 1] [] =
        .error (.noSupplierForLine l.product l.location l.window) :=
  optimise_unmatched_line_fails [] [⟨"P", "L", "W", 1⟩] [] (by simp)
    ⟨⟨"P", "L", "W", 1⟩, by simp, rfl⟩

/-- C3: on every successful call, each allocation row satisfies
`LineCost = Qty × Price` with the price actually quoted by the chosen
supplier for that row's exact product, location and window; `baseCost` is
the sum of the line costs and `total = baseCost + lotChargeTotal`. -/
theorem optimise_result_line_invariants (prices : List Offer)
    (basket : List Line) (tiers : List Tier) (b : BestResult)
    (h : optimise_basket prices basket tiers = .ok b) :
    (∀ e ∈ b.allocation, e.lineCost = e.qty * e.price ∧
      ∃ o ∈ prices, o.supplier = e.supplier ∧ o.product = e.product ∧
        o.location = e.location ∧ o.window = e.window ∧ o.price = e.price) ∧
    b.base_cost = (b.allocation.map (fun e => e.lineCost)).sum ∧
    b.total = b.base_cost + b.lot_charge_total := by
  obtain ⟨S, hS, hev⟩ := optimise_ok_elim h
  obtain ⟨alloc, halloc, rfl⟩ := evalSubset_some_iff.mp hev
  refine ⟨?_, rfl, rfl⟩
  intro e he
  obtain ⟨p, hp, o, ho, rfl⟩ := forall₂_mem_right (assignLines_some_forall₂ halloc) he
  obtain ⟨l, hl, rfl⟩ := List.mem_map.mp hp
  obtain ⟨hof, hoS⟩ := head?_filter_some ho
  obtain ⟨hop, hprod, hloc, hwin⟩ := mem_lineCandidates.mp hof
  exact ⟨rfl, o, hop, rfl, hprod, hloc, hwin, rfl⟩

/-- Witness for C3 on the spec's §8 scenario. -/
theorem optimise_result_line_invariants_witness :
    (∀ e ∈ Rexa.allocation, e.lineCost = e.qty * e.price ∧
      ∃ o ∈ Pexa, o.supplier = e.supplier ∧ o.product = e.product ∧
        o.location = e.location ∧ o.window = e.window ∧ o.price = e.price) ∧
    Rexa.base_cost = (Rexa.allocation.map (fun e => e.lineCost)).sum ∧
    Rexa.total = Rexa.base_cost + Rexa.lot_charge_total :=
  optimise_result_line_invariants Pexa Bexa Texa Rexa (by decide)

/-- C6 counterexample: the claimed equivalence fails, as stated, at the empty
basket: there every line vacuously has a candidate and no enumerated subset
covers every line (no subsets are enumerated at all), yet the call fails with
the empty-basket error, not `NoFeasibleAllocationError`. -/
theorem noFeasible_iff_fails_on_empty_basket :
    (∀ l ∈ ([] : List Line), lineCandidates [] l ≠ []) ∧
    (¬ ∃ S ∈ candidateSubsets [] [], covers S (candidatesOf [] [])) ∧
    optimise_basket [] [] [] = .error .emptyBasket ∧
    optimise_basket [] [] [] ≠ .error .noFeasible := by
  refine ⟨fun l hl => absurd hl (List.not_mem_nil l), ?_, by decide, by decide⟩
  rintro ⟨S, hS, -⟩
  have he : candidateSubsets [] [] = [] := by decide
  rw [he] at hS
  exact absurd hS (List.not_mem_nil S)

/-- C6 (amended with "the basket is non-empty"): for a non-empty basket,
`optimise_basket` fails with `NoFeasibleAllocationError` iff every line
individually has a candidate offer but no enumerated supplier subset under
the size cap covers every line; and whenever every line has a candidate and
the supplier universe has at most 15 suppliers, this error never occurs. -/
theorem noFeasible_characterization (prices : List Offer) (basket : List Line)
    (tiers : List Tier) :
    (optimise_basket prices basket tiers = .error .noFeasible ↔
      basket ≠ [] ∧ (∀ l ∈ basket, lineCandidates prices l ≠ []) ∧
        ¬ ∃ S ∈ candidateSubsets prices basket,
            covers S (candidatesOf prices basket)) ∧
    ((∀ l ∈ basket, lineCandidates prices l ≠ []) →
      (allSuppliers (candidatesOf prices basket)).length ≤ 15 →
      optimise_basket prices basket tiers ≠ .error .noFeasible) := by
  constructor
  · rw [optimise_noFeasible_iff]
    refine and_congr_right (fun _ => and_congr_right (fun _ => ?_))
    constructor
    · rintro h ⟨S, hS, hc⟩
      exact h S hS hc
    · intro h S hS hc
      exact h ⟨S, hS, hc⟩
  · intro hall hk hno
    by_cases hne : basket = []
    · rw [hne] at hno
      unfold optimise_basket at hno
      rw [if_pos rfl] at hno
      injection hno with h'
      exact OptError.noConfusion h'
    · obtain ⟨hne', hall', hnc⟩ := optimise_noFeasible_iff.mp hno
      exact hnc _ (universe_mem_candidateSubsets hne' hall' hk)
        (covers_allSuppliers hall')

/-- Witness for C6 on the spec's §8 scenario: with every line matched and two
suppliers, the no-feasible-allocation error cannot occur. -/
theorem noFeasible_characterization_witness :
    optimise_basket Pexa Bexa Texa ≠ .error .noFeasible :=
  (noFeasible_characterization Pexa Bexa Texa).2 (by decide) (by decide)

/-- C1 counterexample: on two 12 t lines, suppliers A (100) and B (101) and a
`≥24t → £15/t` tier table, `optimise_basket` returns total 2760 (all lines to
A, 24 t, £360 charge), while the feasible per-line assignment taking line 1
from A and line 2 from B costs 2412 (12 t each, no tier matches): the
returned total is not the minimum of `baseCost + lotChargeTotal` over all
feasible assignments of one quoting supplier per line. -/
theorem optimise_total_not_assignment_minimal :
    (optimise_basket Pcex Bcex Tcex).toOption.map (fun b => b.total) =
      some 2760 ∧
    specAssignmentOK Pcex Bcex CHcex = true ∧
    specAssignmentCost Tcex Bcex CHcex = 2412 ∧
    ((2412 : ℚ) < 2760) := by
  decide

/-- C1 (amended): for every non-empty basket whose lines all have a matching
offer and whose supplier universe has at most 15 suppliers,
`optimise_basket` succeeds, and the returned result is one of the evaluated
subset assignments and its total is minimal among the evaluations of all
enumerated supplier subsets (each line taking the cheapest in-subset offer)
— not necessarily minimal over all per-line assignments. -/
theorem optimise_total_minimal_over_subsets (prices : List Offer)
    (basket : List Line) (tiers : List Tier) (hne : basket ≠ [])
    (hcand : ∀ l ∈ basket, lineCandidates prices l ≠ [])
    (hk : (allSuppliers (candidatesOf prices basket)).length ≤ 15) :
    ∃ b, optimise_basket prices basket tiers = .ok b ∧
      (∃ S ∈ candidateSubsets prices basket,
        evalSubset tiers (candidatesOf prices basket) S = some b) ∧
      ∀ S ∈ candidateSubsets prices basket,
        ∀ r, evalSubset tiers (candidatesOf prices basket) S = some r →
          b.total ≤ r.total := by
  obtain ⟨b, hb⟩ := optimise_succeeds tiers hne hcand hk
  obtain ⟨-, -, hpick⟩ := optimise_ok_shape hb
  refine ⟨b, hb, List.mem_filterMap.mp (pickBest_mem hpick), ?_⟩
  intro S hS r hr
  exact pickBest_le hpick r (List.mem_filterMap.mpr ⟨S, hS, hr⟩)

/-- Witness for C1's amended statement on the spec's §8 scenario. -/
theorem optimise_total_minimal_over_subsets_witness :
    ∃ b, optimise_basket Pexa Bexa Texa = .ok b ∧
      (∃ S ∈ candidateSubsets Pexa Bexa,
        evalSubset Texa (candidatesOf Pexa Bexa) S = some b) ∧
      ∀ S ∈ candidateSubsets Pexa Bexa,
        ∀ r, evalSubset Texa (candidatesOf Pexa Bexa) S = some r →
          b.total ≤ r.total :=
  optimise_total_minimal_over_subsets Pexa Bexa Texa (by simp [Bexa])
    (by decide) (by decide)

/-- C9: on a two-line basket whose optimal allocation awards both lines to
one supplier with quantities summing to 30 t, under the `<24t → £15/t`,
`≥24t → £0/t` table, the tier charge is resolved on the combined 30 t (zero)
and the result carries a zero lot charge, even though each line alone is
under 24 t. -/
theorem combined_tonnage_crosses_threshold (prices : List Offer)
    (l1 l2 : Line) (b : BestResult) (e1 e2 : AllocEntry) (s : String)
    (h : optimise_basket prices [l1, l2] T9 = .ok b)
    (halloc : b.allocation = [e1, e2])
    (hs1 : e1.supplier = s) (hs2 : e2.supplier = s)
    (hsum : e1.qty + e2.qty = 30)
    (hq1 : e1.qty < 24) (hq2 : e2.qty < 24) :
    tier_charge_per_t (e1.qty + e2.qty) T9 = 0 ∧
    b.lot_charges = [] ∧ b.lot_charge_total = 0 := by
  have hcpt : tier_charge_per_t 30 T9 = 0 := by decide
  obtain ⟨S, hS, hev⟩ := optimise_ok_elim h
  obtain ⟨alloc, halloc', rfl⟩ := evalSubset_some_iff.mp hev
  have ha2 : alloc = [e1, e2] := halloc
  subst ha2
  have hempty : lotChargesFor T9 S [e1, e2] = [] := by
    unfold lotChargesFor
    rw [List.filterMap_eq_nil_iff]
    intro s' hs'
    by_cases hss : s' = s
    · subst hss
      have ht : allocTonnes [e1, e2] s' = 30 := by
        unfold allocTonnes
        simp [hs1, hs2, hsum]
      simp only [ht]
      simp [hcpt]
    · have ht : allocTonnes [e1, e2] s' = 0 := by
        unfold allocTonnes
        have hne1 : e1.supplier ≠ s' := by rw [hs1]; exact fun hc => hss hc.symm
        have hne2 : e2.supplier ≠ s' := by rw [hs2]; exact fun hc => hss hc.symm
        simp [hne1, hne2]
      simp [ht]
  refine ⟨by rw [hsum]; exact hcpt, hempty, by rw [hempty]; rfl⟩

/-- Witness for C9: one supplier, lines of 14 t and 16 t, combined 30 t, zero
lot charge. -/
theorem combined_tonnage_crosses_threshold_witness :
    tier_charge_per_t ((14 : ℚ) + 16) T9 = 0 ∧
    R9.lot_charges = [] ∧ R9.lot_charge_total = 0 :=
  combined_tonnage_crosses_threshold P9 ⟨"U", "X", "W", 14⟩ ⟨"U", "X", "W", 16⟩
    R9 ⟨"U", "X", "W", 14, "A", 100, 1400⟩ ⟨"U", "X", "W", 16, "A", 100, 1600⟩
    "A" (by decide) rfl rfl rfl (by decide) (by decide) (by decide)

/-- C10: on every successful call, the lot-charge list has exactly one entry
per supplier with strictly positive allocated tonnage and strictly positive
resolved charge per tonne (zero-charge suppliers are omitted), each entry's
lot charge equals tonnes × charge-per-tonne on that supplier's allocated
tonnage, and the lot-charge total is the sum of the listed lot charges. -/
theorem lot_charges_structure (prices : List Offer) (basket : List Line)
    (tiers : List Tier) (b : BestResult)
    (h : optimise_basket prices basket tiers = .ok b) :
    (∀ e ∈ b.lot_charges,
      e.tonnes = allocTonnes b.allocation e.supplier ∧ 0 < e.tonnes ∧
      e.chargePerT = tier_charge_per_t e.tonnes tiers ∧ 0 < e.chargePerT ∧
      e.lotCharge = e.tonnes * e.chargePerT) ∧
    (b.lot_charges.map (fun e => e.supplier)).Nodup ∧
    (∀ s, 0 < allocTonnes b.allocation s →
      0 < tier_charge_per_t (allocTonnes b.allocation s) tiers →
      ∃ e ∈ b.lot_charges, e.supplier = s) ∧
    b.lot_charge_total = (b.lot_charges.map (fun e => e.lotCharge)).sum := by
  obtain ⟨S, hS, hev⟩ := optimise_ok_elim h
  obtain ⟨alloc, halloc, rfl⟩ := evalSubset_some_iff.mp hev
  refine ⟨?_, ?_, ?_, rfl⟩
  · intro e he
    obtain ⟨s, hs, h1, h2, rfl⟩ := mem_lotChargesFor.mp he
    exact ⟨rfl, not_le.mp h1, rfl, h2, rfl⟩
  · exact filterMap_map_nodup (fun s e hf => lotChargesFor_supplier hf)
      (candidateSubsets_nodup hS)
  · intro s hpos hcpt
    have hex : ∃ a ∈ alloc, a.supplier = s := by
      by_contra hno
      push_neg at hno
      have hfe : alloc.filter (fun a => a.supplier == s) = [] :=
        List.filter_eq_nil_iff.mpr
          (fun a ha => by simpa using hno a ha)
      have ht : allocTonnes alloc s = 0 := by
        unfold allocTonnes
        rw [hfe]
        rfl
      rw [ht] at hpos
      exact absurd hpos (by norm_num)
    obtain ⟨a, ha, rfl⟩ := hex
    have hsS : a.supplier ∈ S := by
      obtain ⟨p, hp, o, ho, rfl⟩ :=
        forall₂_mem_right (assignLines_some_forall₂ halloc) ha
      obtain ⟨-, hoS⟩ := head?_filter_some ho
      simpa using hoS
    exact ⟨_, mem_lotChargesFor.mpr
      ⟨a.supplier, hsS, not_le.mpr hpos, hcpt, rfl⟩, rfl⟩

/-- C7: for every basket, price table and tier table on which
`optimise_basket` succeeds, raising the `ChargePerTonne` of any single tier
(holding its range and activity and everything else fixed) leaves the call
successful and never decreases the returned total. -/
theorem raising_tier_charge_monotone (prices : List Offer)
    (basket : List Line) (tiers : List Tier) (i : Nat) (r r' : Tier)
    (b : BestResult) (hget : tiers[i]? = some r)
    (hmin : r'.min_t = r.min_t) (hmax : r'.max_t = r.max_t)
    (hact : r'.active = r.active)
    (hch : r.charge_per_t ≤ r'.charge_per_t)
    (hok : optimise_basket prices basket tiers = .ok b) :
    ∃ b', optimise_basket prices basket (tiers.set i r') = .ok b' ∧
      b.total ≤ b'.total := by
  have hrel : List.Forall₂ TierLE tiers (tiers.set i r') :=
    forall₂_tierLE_set hget hmin hmax hact hch
  obtain ⟨hne, hfind, hpick⟩ := optimise_ok_shape hok
  obtain ⟨S0, hS0, hev0⟩ := List.mem_filterMap.mp (pickBest_mem hpick)
  obtain ⟨r2, hr2, -⟩ := evalSubset_mono hrel hev0
  have hmem2 : r2 ∈ (candidateSubsets prices basket).filterMap
      (evalSubset (tiers.set i r') (candidatesOf prices basket)) :=
    List.mem_filterMap.mpr ⟨S0, hS0, hr2⟩
  rcases pickBest_spec ((candidateSubsets prices basket).filterMap
      (evalSubset (tiers.set i r') (candidatesOf prices basket))) with
    ⟨hnil, -⟩ | ⟨b', hb', hbmem', -⟩
  · rw [hnil] at hmem2
    exact absurd hmem2 (List.not_mem_nil _)
  refine ⟨b', ?_, ?_⟩
  · unfold optimise_basket
    rw [if_neg hne, hfind, hb']
  · obtain ⟨S1, hS1, hev1⟩ := List.mem_filterMap.mp hbmem'
    obtain ⟨alloc1, halloc1, -⟩ := evalSubset_some_iff.mp hev1
    obtain ⟨rOld, hrOld⟩ := evalSubset_isSome tiers halloc1
    obtain ⟨r2b, hr2b, hle⟩ := evalSubset_mono hrel hrOld
    rw [hev1] at hr2b
    injection hr2b with hr2b'
    rw [← hr2b'] at hle
    exact le_trans
      (pickBest_le hpick rOld (List.mem_filterMap.mpr ⟨S1, hS1, hrOld⟩)) hle

/-- Witness for C7: raising the £15/t tier of the §8 scenario to £20/t keeps
the call successful with a total at least 2950. -/
theorem raising_tier_charge_monotone_witness :
    ∃ b', optimise_basket Pexa Bexa (Texa.set 0 ⟨0, some 24, 20, 1⟩) = .ok b' ∧
      Rexa.total ≤ b'.total :=
  raising_tier_charge_monotone Pexa Bexa Texa 0 ⟨0, some 24, 15, 1⟩
    ⟨0, some 24, 20, 1⟩ Rexa (by decide) rfl rfl rfl (by decide) (by decide)

/-- C8: permuting the basket's lines never changes the outcome: the permuted
basket also succeeds, with the same `baseCost`, `lotChargeTotal` and `total`,
and both allocations apply one common per-line choice to the respective
baskets, so each individual line keeps the same supplier, price and line
cost; only the display order of the allocation rows follows the basket. -/
theorem basket_order_irrelevant (prices : List Offer) (tiers : List Tier)
    (basket basket' : List Line) (hperm : basket.Perm basket')
    (b : BestResult) (hok : optimise_basket prices basket tiers = .ok b) :
    ∃ b', optimise_basket prices basket' tiers = .ok b' ∧
      b'.base_cost = b.base_cost ∧ b'.lot_charge_total = b.lot_charge_total ∧
      b'.total = b.total ∧
      ∃ f : Line → AllocEntry, b.allocation = basket.map f ∧
        b'.allocation = basket'.map f := by
  obtain ⟨hne, hfind, hpick⟩ := optimise_ok_shape hok
  have hne' : basket' ≠ [] := fun hc => hne (List.Perm.eq_nil (hc ▸ hperm))
  have hfind' : basket'.find? (fun l => (lineCandidates prices l).isEmpty)
      = none := by
    rw [List.find?_eq_none] at hfind ⊢
    intro l hl
    exact hfind l (hperm.mem_iff.mpr hl)
  have hCS : candidateSubsets prices basket' = candidateSubsets prices basket := by
    unfold candidateSubsets
    rw [allSuppliers_perm_eq hperm]
  have hrel : List.Forall₂ (permRel basket basket')
      ((candidateSubsets prices basket).filterMap
        (evalSubset tiers (candidatesOf prices basket)))
      ((candidateSubsets prices basket).filterMap
        (evalSubset tiers (candidatesOf prices basket'))) := by
    apply filterMap_forall₂_of_rel
    intro S hS
    cases hev : evalSubset tiers (candidatesOf prices basket) S with
    | none =>
      refine Or.inl ⟨rfl, ?_⟩
      rw [evalSubset_none_iff] at hev ⊢
      have h1 : ¬ covers S (candidatesOf prices basket) := by
        intro hcov
        obtain ⟨al, hal⟩ := Option.isSome_iff_exists.mp
          (assignLines_isSome_iff.mpr hcov)
        rw [hev] at hal
        exact Option.noConfusion hal
      have h2 : ¬ covers S (candidatesOf prices basket') :=
        fun hc => h1 ((covers_perm hperm).mpr hc)
      cases hval : assignLines S (candidatesOf prices basket') with
      | none => rfl
      | some al =>
        exact absurd (assignLines_isSome_iff.mp (by rw [hval]; rfl)) h2
    | some r =>
      obtain ⟨r', hr', hrr⟩ := evalSubset_perm_rel hperm hev
      exact Or.inr ⟨r, r', rfl, hr', hrr⟩
  obtain ⟨b', hb', hR⟩ := pickBest_some_forall₂ (fun x y h => h.1) hrel hpick
  obtain ⟨ht, hbase, hlct, f, hf1, hf2⟩ := hR
  refine ⟨b', ?_, hbase.symm, hlct.symm, ht.symm, f, hf1, hf2⟩
  unfold optimise_basket
  rw [if_neg hne', hfind', hCS, hb']

/-- Witness for C8: swapping the two lines of the combined-tonnage scenario
leaves all cost figures unchanged and the per-line choices identical. -/
theorem basket_order_irrelevant_witness :
    ∃ b', optimise_basket P9 B9r T9 = .ok b' ∧
      b'.base_cost = R9.base_cost ∧ b'.lot_charge_total = R9.lot_charge_total ∧
      b'.total = R9.total ∧
      ∃ f : Line → AllocEntry, R9.allocation = B9.map f ∧
        b'.allocation = B9r.map f :=
  basket_order_irrelevant P9 T9 B9 B9r (by decide) R9 (by decide)

/-- Witness for C10 on the spec's §8 scenario. -/
theorem lot_charges_structure_witness :
    (∀ e ∈ Rexa.lot_charges,
      e.tonnes = allocTonnes Rexa.allocation e.supplier ∧ 0 < e.tonnes ∧
      e.chargePerT = tier_charge_per_t e.tonnes Texa ∧ 0 < e.chargePerT ∧
      e.lotCharge = e.tonnes * e.chargePerT) ∧
    (Rexa.lot_charges.map (fun e => e.supplier)).Nodup ∧
    (∀ s, 0 < allocTonnes Rexa.allocation s →
      0 < tier_charge_per_t (allocTonnes Rexa.allocation s) Texa →
      ∃ e ∈ Rexa.lot_charges, e.supplier = s) ∧
    Rexa.lot_charge_total = (Rexa.lot_charges.map (fun e => e.lotCharge)).sum :=
  lot_charges_structure Pexa Bexa Texa Rexa (by decide)

end Foresight
